import Mathlib

/-!
Shallow embedding of the pixel-block blitter in
src/library/src/main/jni/image/image_utils.c.

Conventions of the embedding:
* A pixel is its four memory bytes (fields r, g, b, a are bytes 0..3 of the
  4-byte pixel, which is the native R,G,B,A layout used by rgba_to_color and
  color_to_rgba in the source).
* Buffers are total functions from pixel index (an integer, so that
  out-of-range indices are representable) to pixels.  All positions that the
  C code keeps as byte offsets (dst_pos, src_pos, dst_blank_length, ...) are
  kept as byte offsets here and divided by 4 exactly where the code casts a
  byte pointer to an int pointer.
* C "int" arithmetic is modelled by unbounded integers; the casts to size_t
  that the code performs (and on which its behaviour turns for negative
  operands) are modelled exactly by sizeT, and the size_t -> int conversion
  of "dst_pos += dst_blank_length" by addSizeT / toInt32.
* C "/" and "%" on int are truncated division, hence Int.tdiv / Int.tmod.
* The process-wide endianness flag of get_endian is a parameter (little).
* Every store the C code performs through the destination pointer updates
  dstB and is also recorded in the writes trace as a (first pixel, pixel
  count) range; every load through the source pointer is recorded in reads.
  The source buffer srcB is part of the threaded state, so that the frame
  effect of the routine on it is a statement, not a typing convention.
-/

namespace Image

/-- One 4-byte pixel, as its four memory bytes: field r is byte 0, g byte 1,
b byte 2, a byte 3 (the buffer's native R,G,B,A order). -/
structure Pix where
  r : ℕ
  g : ℕ
  b : ℕ
  a : ℕ
  deriving DecidableEq

/-- All four channel bytes are in [0, 255]. -/
def Pix.valid (p : Pix) : Prop := p.r < 256 ∧ p.g < 256 ∧ p.b < 256 ∧ p.a < 256

instance (p : Pix) : Decidable p.valid := by unfold Pix.valid; infer_instance

/-- Value of a C int reinterpreted as a 32-bit unsigned value (the byte
pattern of the int). -/
def uint32 (v : ℤ) : ℕ := (v % (2 ^ 32 : ℤ)).toNat

/-- Byte i (0..3) of the in-memory representation of the 32-bit value v:
least significant byte first when little is true, most significant byte
first otherwise.  This is what "((unsigned char *) &origin)[i]" reads. -/
def intByte (little : Bool) (v : ℤ) (i : ℕ) : ℕ :=
  if little then uint32 v / 256 ^ i % 256 else uint32 v / 256 ^ (3 - i) % 256

/-- convert_color: permutes the memory bytes of the external color into the
buffer's native layout.  The first branch of the C function is the
big-endian one, the second the little-endian one. -/
def convert_color (little : Bool) (origin : ℤ) : Pix :=
  if little then
    ⟨intByte true origin 2, intByte true origin 1, intByte true origin 0, intByte true origin 3⟩
  else
    ⟨intByte false origin 1, intByte false origin 2, intByte false origin 3, intByte false origin 0⟩

/-- color_to_rgba: reads bytes 0..3 of a pixel as (r, g, b, a). -/
def color_to_rgba (p : Pix) : ℕ × ℕ × ℕ × ℕ := (p.r, p.g, p.b, p.a)

/-- The R channel the caller means by an external color value: the external
convention packs the color as A,R,G,B in the 32-bit value. -/
def extR (v : ℤ) : ℕ := uint32 v / 2 ^ 16 % 256

/-- The G channel the caller means by an external color value. -/
def extG (v : ℤ) : ℕ := uint32 v / 2 ^ 8 % 256

/-- The B channel the caller means by an external color value. -/
def extB (v : ℤ) : ℕ := uint32 v % 256

/-- The A channel the caller means by an external color value. -/
def extA (v : ℤ) : ℕ := uint32 v / 2 ^ 24 % 256

/-- The value of "(size_t) v" for a C int v: reduction mod 2^64. -/
def sizeT (v : ℤ) : ℕ := (v % (2 ^ 64 : ℤ)).toNat

/-- Conversion of an unsigned 64-bit value back to a 32-bit signed int
(two's complement wrap, the behaviour of the compilers this code targets). -/
def toInt32 (v : ℤ) : ℤ := (v + 2 ^ 31) % 2 ^ 32 - 2 ^ 31

/-- "pos += len" where pos is int and len is size_t: pos is converted to
size_t, the addition wraps mod 2^64, the result is converted back to int. -/
def addSizeT (pos : ℤ) (len : ℕ) : ℤ := toInt32 ((pos % (2 ^ 64 : ℤ) + len) % 2 ^ 64)

/-- floor(num, multiple) from the source: num rounded to a multiple of
multiple by dropping the C remainder (truncated, so for negative num this
moves toward zero). -/
def floor (num multiple : ℤ) : ℤ :=
  let remainder := num.tmod multiple
  if remainder = 0 then num else num - remainder

/-- ceil(num, multiple) from the source. -/
def ceil (num multiple : ℤ) : ℤ :=
  let remainder := num.tmod multiple
  if remainder = 0 then num else num - remainder + multiple

/-- average_step on unsigned char accumulators x (running quotient) and y
(running remainder); the += on unsigned char wraps mod 256. -/
def average_step (num count x y : ℕ) : ℕ × ℕ :=
  let x1 := (x + num / count) % 256
  let y1 := (y + num % count) % 256
  if count ≤ y1 then ((x1 + 1) % 256, y1 - count) else (x1, y1)

/-- The eight unsigned char accumulators r1,r2,g1,g2,b1,b2,a1,a2 of
bilinear_color. -/
structure AvgAcc where
  r1 : ℕ
  r2 : ℕ
  g1 : ℕ
  g2 : ℕ
  b1 : ℕ
  b2 : ℕ
  a1 : ℕ
  a2 : ℕ
  deriving DecidableEq

/-- One inner-loop iteration of bilinear_color: average_step on each of the
four channels of one sample. -/
def bilinear_step (count : ℕ) (acc : AvgAcc) (p : Pix) : AvgAcc :=
  let r := average_step p.r count acc.r1 acc.r2
  let g := average_step p.g count acc.g1 acc.g2
  let b := average_step p.b count acc.b1 acc.b2
  let a := average_step p.a count acc.a1 acc.a2
  ⟨r.1, r.2, g.1, g.2, b.1, b.2, a.1, a.2⟩

/-- The ratio x ratio block of source pixels read by bilinear_color, in its
scan order: row index i outer, column index j inner, sample at
ptr + w * i + j. -/
def blockSamples (srcB : ℤ → Pix) (ptr w ratio : ℤ) : List Pix :=
  (List.range ratio.toNat).flatMap fun (i : ℕ) =>
    (List.range ratio.toNat).map fun (j : ℕ) => srcB (ptr + w * (i : ℤ) + (j : ℤ))

/-- bilinear_color: reduces a ratio x ratio block at pixel index ptr in a
buffer of row width w to one pixel, channel by channel, with
count = ratio * ratio. -/
def bilinear_color (srcB : ℤ → Pix) (ptr w ratio : ℤ) : Pix :=
  let count := (ratio * ratio).toNat
  let acc := (blockSamples srcB ptr w ratio).foldl (bilinear_step count) ⟨0, 0, 0, 0, 0, 0, 0, 0⟩
  ⟨acc.r1, acc.g1, acc.b1, acc.a1⟩

/-- The source ranges (first pixel, pixel count) that one bilinear_color
call loads: ratio consecutive pixels in each of ratio rows. -/
def bilinear_reads (ptr w ratio : ℤ) : List (ℤ × ℕ) :=
  (List.range ratio.toNat).map fun (i : ℕ) => (ptr + w * (i : ℤ), ratio.toNat)

/-- The memory state threaded through a blit call: the borrowed source and
destination buffers (pixel index to pixel) and the trace of destination
store ranges and source load ranges, in pixels. -/
structure BlitState where
  srcB : ℤ → Pix
  dstB : ℤ → Pix
  writes : List (ℤ × ℕ)
  reads : List (ℤ × ℕ)

/-- memset_int: stores val into size consecutive ints (pixels) of the
destination, starting at pixel index base. -/
def memset_int (base : ℤ) (val : Pix) (size : ℕ) (st : BlitState) : BlitState :=
  { st with
    dstB := fun i => if base ≤ i ∧ i < base + (size : ℤ) then val else st.dstB i,
    writes := (base, size) :: st.writes }

/-- memcpy of size pixels from source pixel index srcBase to destination
pixel index dstBase (the ratio == 1 arm of copy_color). -/
def memcpyPix (dstBase srcBase : ℤ) (size : ℕ) (st : BlitState) : BlitState :=
  { st with
    dstB := fun i =>
      if dstBase ≤ i ∧ i < dstBase + (size : ℤ) then st.srcB (srcBase + (i - dstBase))
      else st.dstB i,
    writes := (dstBase, size) :: st.writes,
    reads := (srcBase, size) :: st.reads }

/-- The single-pixel destination store "*dst = ..." of copy_color_internal. -/
def writePixel (pos : ℤ) (val : Pix) (st : BlitState) : BlitState :=
  { st with
    dstB := fun i => if i = pos then val else st.dstB i,
    writes := (pos, 1) :: st.writes }

/-- Record source load ranges in the trace. -/
def addReads (rs : List (ℤ × ℕ)) (st : BlitState) : BlitState :=
  { st with reads := rs ++ st.reads }

/-- copy_color_internal: n iterations, each writing one destination pixel
with the block average at the current source position, then advancing the
destination by one pixel and the source by ratio pixels.  n is the value of
the C loop bound count (the iteration count is 0 when count <= 0). -/
def copy_color_internal (src_w ratio : ℤ) : ℕ → ℤ → ℤ → BlitState → BlitState
  | 0, _, _, st => st
  | n + 1, dp, sp, st =>
      copy_color_internal src_w ratio n (dp + 1) (sp + ratio)
        (writePixel dp (bilinear_color st.srcB sp src_w ratio)
          (addReads (bilinear_reads sp src_w ratio) st))

/-- copy_color: dstPos and srcPos are pixel indices (the C function receives
the already-offset byte pointers).  For ratio == 1 it memcpys
(size_t)(count * 4) bytes; otherwise it runs copy_color_internal with
count / ratio iterations. -/
def copy_color (src_w count ratio : ℤ) (dstPos srcPos : ℤ) (st : BlitState) : BlitState :=
  if ratio = 1 then
    memcpyPix dstPos srcPos (sizeT (count * 4) / 4) st
  else
    copy_color_internal src_w ratio ((count.tdiv ratio).toNat) dstPos srcPos st

/-- The six geometry variables that the clipping phase of
copy_pixels_internal mutates. -/
structure ClipState where
  dst_x : ℤ
  dst_y : ℤ
  src_x : ℤ
  src_y : ℤ
  width : ℤ
  height : ℤ
  deriving DecidableEq

/-- "Make width and height is multiple of ratio". -/
def clipFloor (ratio : ℤ) (s : ClipState) : ClipState :=
  { s with width := floor s.width ratio, height := floor s.height ratio }

/-- The "if (src_x < 0)" clip step. -/
def clipNegSrcX (ratio : ℤ) (s : ClipState) : ClipState :=
  if s.src_x < 0 then
    let temp := ceil (-s.src_x) ratio
    { s with src_x := s.src_x + temp, dst_x := s.dst_x + temp.tdiv ratio,
             width := s.width - temp }
  else s

/-- The "if (dst_x < 0)" clip step. -/
def clipNegDstX (ratio : ℤ) (s : ClipState) : ClipState :=
  if s.dst_x < 0 then
    let temp := -s.dst_x * ratio
    { s with src_x := s.src_x + temp, dst_x := 0, width := s.width - temp }
  else s

/-- The "if (src_y < 0)" clip step. -/
def clipNegSrcY (ratio : ℤ) (s : ClipState) : ClipState :=
  if s.src_y < 0 then
    let temp := ceil (-s.src_y) ratio
    { s with src_y := s.src_y + temp, dst_y := s.dst_y + temp.tdiv ratio,
             height := s.height - temp }
  else s

/-- The "if (dst_y < 0)" clip step. -/
def clipNegDstY (ratio : ℤ) (s : ClipState) : ClipState :=
  if s.dst_y < 0 then
    let temp := -s.dst_y * ratio
    { s with src_y := s.src_y + temp, dst_y := 0, height := s.height - temp }
  else s

/-- The "Make sure x + width <= w" step against the source width. -/
def clipFarSrcX (src_w ratio : ℤ) (s : ClipState) : ClipState :=
  let temp := s.src_x + s.width - src_w
  if temp > 0 then { s with width := s.width - ceil temp ratio } else s

/-- The "Make sure x + width <= w" step against the destination width. -/
def clipFarDstX (dst_w ratio : ℤ) (s : ClipState) : ClipState :=
  let temp := s.dst_x + s.width.tdiv ratio - dst_w
  if temp > 0 then { s with width := s.width - temp * ratio } else s

/-- The "Make sure y + height <= h" step against the source height. -/
def clipFarSrcY (src_h ratio : ℤ) (s : ClipState) : ClipState :=
  let temp := s.src_y + s.height - src_h
  if temp > 0 then { s with height := s.height - ceil temp ratio } else s

/-- The "Make sure y + height <= h" step against the destination height. -/
def clipFarDstY (dst_h ratio : ℤ) (s : ClipState) : ClipState :=
  let temp := s.dst_y + s.height.tdiv ratio - dst_h
  if temp > 0 then { s with height := s.height - temp * ratio } else s

/-- The clipping phase of copy_pixels_internal, lines 160-232 of the source:
none exactly when the function returns false there. -/
def clip (src_w src_h dst_w dst_h ratio : ℤ) (s0 : ClipState) : Option ClipState :=
  if ratio ≤ 0 then none else
  let s1 := clipFloor ratio s0
  if ratio > s1.width ∨ ratio > s1.height then none else
  let s2 := clipNegDstX ratio (clipNegSrcX ratio s1)
  if s2.width ≤ 0 then none else
  let s3 := clipNegDstY ratio (clipNegSrcY ratio s2)
  if s3.height ≤ 0 then none else
  let s4 := clipFarDstX dst_w ratio (clipFarSrcX src_w ratio s3)
  if s4.width ≤ 0 then none else
  let s5 := clipFarDstY dst_h ratio (clipFarSrcY src_h ratio s4)
  if s5.height ≤ 0 then none else
  some s5

/-- The successive states of the clipping phase, one entry per clip step of
the source (after the width/height rounding, after each of the four
negative-offset steps, and after each of the four far-edge steps), in the
order clip applies them.  The last entry is what clip returns on success. -/
def clipStages (src_w src_h dst_w dst_h ratio : ℤ) (s0 : ClipState) : List ClipState :=
  let s1 := clipFloor ratio s0
  let s2a := clipNegSrcX ratio s1
  let s2 := clipNegDstX ratio s2a
  let s3a := clipNegSrcY ratio s2
  let s3 := clipNegDstY ratio s3a
  let s4a := clipFarSrcX src_w ratio s3
  let s4 := clipFarDstX dst_w ratio s4a
  let s5a := clipFarSrcY src_h ratio s4
  let s5 := clipFarDstY dst_h ratio s5a
  [s1, s2a, s2, s3a, s3, s4a, s4, s5a, s5]

/-- The "Other lines" loop of copy_pixels_internal: n remaining iterations
(the C loop runs for line = 1 .. height/ratio - 1), carrying the byte
offsets dst_pos and src_pos; returns the state and the final dst_pos. -/
def blit_loop (src_w width ratio : ℤ) (fill_blank : Bool) (fillc : Pix) (dstBlank : ℕ) :
    ℕ → ℤ → ℤ → BlitState → BlitState × ℤ
  | 0, dst_pos, _, st => (st, dst_pos)
  | n + 1, dst_pos, src_pos, st =>
      let st1 := if fill_blank ∧ dstBlank ≠ 0 then
        memset_int (dst_pos.tdiv 4) fillc (dstBlank / 4) st else st
      let dp1 := addSizeT dst_pos dstBlank
      let st2 := copy_color src_w width ratio (dp1.tdiv 4) (src_pos.tdiv 4) st1
      blit_loop src_w width ratio fill_blank fillc dstBlank n
        (dp1 + width * 4) (src_pos + src_w * 4 * ratio) st2

/-- copy_pixels_internal: clip, then start blank, first line, other lines,
and trailing blank.  The Bool is the C return value. -/
def copy_pixels_internal (dst_w dst_h dst_x dst_y src_w src_h src_x src_y width height ratio : ℤ)
    (fill_blank : Bool) (fillc : Pix) (st : BlitState) : BlitState × Bool :=
  match clip src_w src_h dst_w dst_h ratio ⟨dst_x, dst_y, src_x, src_y, width, height⟩ with
  | none => (st, false)
  | some g =>
      let src_pos := (g.src_y * src_w + g.src_x) * 4
      let dst_pos : ℤ := 0
      let startBlank : ℕ := sizeT (g.dst_y * dst_w + g.dst_x) * 4 % 2 ^ 64
      let st1 := if fill_blank then memset_int (dst_pos.tdiv 4) fillc (startBlank / 4) st else st
      let dst_pos := addSizeT dst_pos startBlank
      let st2 := copy_color src_w g.width ratio (dst_pos.tdiv 4) (src_pos.tdiv 4) st1
      let dst_pos := dst_pos + g.width * 4
      let src_pos := src_pos + src_w * 4 * ratio
      let dstBlank : ℕ := sizeT ((dst_w - g.width) * 4)
      let res := blit_loop src_w g.width ratio fill_blank fillc dstBlank
        ((g.height.tdiv ratio - 1).toNat) dst_pos src_pos st2
      (if fill_blank then
        memset_int (res.2.tdiv 4) fillc (sizeT (dst_w * dst_h * 4 - res.2) / 4) res.1
       else res.1, true)

/-- copy_pixels: converts the fill color once if fill_blank, runs the
internal routine, and on total clip failure with fill_blank fills the whole
destination buffer ((size_t)(dst_w * dst_h) ints from the buffer start). -/
def copy_pixels (dst_w dst_h dst_x dst_y src_w src_h src_x src_y width height ratio : ℤ)
    (fill_blank : Bool) (fill_color : ℤ) (little : Bool) (st : BlitState) : BlitState :=
  let color := if fill_blank then convert_color little fill_color else ⟨0, 0, 0, 0⟩
  match copy_pixels_internal dst_w dst_h dst_x dst_y src_w src_h src_x src_y width height ratio
      fill_blank color st with
  | (st1, true) => st1
  | (st1, false) =>
      if fill_blank then memset_int 0 color (sizeT (dst_w * dst_h)) st1 else st1

/-- Some pixel of the range list covers index i. -/
def writtenIn (tr : List (ℤ × ℕ)) (i : ℤ) : Prop :=
  ∃ p ∈ tr, p.1 ≤ i ∧ i < p.1 + (p.2 : ℤ)

instance (tr : List (ℤ × ℕ)) (i : ℤ) : Decidable (writtenIn tr i) := by
  unfold writtenIn; infer_instance

/-- Sum of one channel over a list of pixels. -/
def chanSum (f : Pix → ℕ) (l : List Pix) : ℕ := (l.map f).sum

/-- A concrete state used by the concrete evaluations below: source pixels
all (1,2,3,4), destination pixels all (9,9,9,9), empty traces. -/
def demoState : BlitState :=
  { srcB := fun _ => ⟨1, 2, 3, 4⟩, dstB := fun _ => ⟨9, 9, 9, 9⟩, writes := [], reads := [] }

/-- A constant source buffer whose every channel byte is 143 (the value
that exhibits the unsigned char wrap of the remainder accumulator). -/
def src143 : ℤ → Pix := fun _ => ⟨143, 143, 143, 143⟩

/-- A state for exercising copy_color alone: all-255 source, destination
marked with (7,7,7,7). -/
def markState : BlitState :=
  { srcB := fun _ => ⟨255, 255, 255, 255⟩, dstB := fun _ => ⟨7, 7, 7, 7⟩, writes := [], reads := [] }

/-! ### Basic facts about the size_t and int conversions -/

lemma sizeT_coe (v : ℤ) (h0 : 0 ≤ v) (h : v < 2 ^ 64) : (sizeT v : ℤ) = v := by
  unfold sizeT; omega

lemma addSizeT_eq (pos : ℤ) (len : ℕ) (h0 : 0 ≤ pos) (h : pos + (len : ℤ) < 2 ^ 31) :
    addSizeT pos len = pos + len := by
  unfold addSizeT toInt32; omega

lemma four_mul_tdiv (q : ℤ) : (4 * q).tdiv 4 = q :=
  Int.mul_tdiv_cancel_left q (by omega)

/-! ### The state components each primitive leaves alone -/

@[simp] lemma memset_int_srcB (b : ℤ) (v : Pix) (n : ℕ) (st : BlitState) :
    (memset_int b v n st).srcB = st.srcB := rfl

@[simp] lemma memset_int_reads (b : ℤ) (v : Pix) (n : ℕ) (st : BlitState) :
    (memset_int b v n st).reads = st.reads := rfl

@[simp] lemma memcpyPix_srcB (db sb : ℤ) (n : ℕ) (st : BlitState) :
    (memcpyPix db sb n st).srcB = st.srcB := rfl

@[simp] lemma writePixel_srcB (p : ℤ) (v : Pix) (st : BlitState) :
    (writePixel p v st).srcB = st.srcB := rfl

@[simp] lemma addReads_srcB (rs : List (ℤ × ℕ)) (st : BlitState) :
    (addReads rs st).srcB = st.srcB := rfl

@[simp] lemma addReads_dstB (rs : List (ℤ × ℕ)) (st : BlitState) :
    (addReads rs st).dstB = st.dstB := rfl

lemma copy_color_internal_srcB (src_w ratio : ℤ) :
    ∀ (n : ℕ) (dp sp : ℤ) (st : BlitState),
      (copy_color_internal src_w ratio n dp sp st).srcB = st.srcB := by
  intro n
  induction n with
  | zero => intro dp sp st; rfl
  | succ n ih => intro dp sp st; rw [copy_color_internal, ih]; rfl

lemma copy_color_srcB (src_w count ratio dp sp : ℤ) (st : BlitState) :
    (copy_color src_w count ratio dp sp st).srcB = st.srcB := by
  unfold copy_color
  split_ifs
  · rfl
  · rw [copy_color_internal_srcB]

lemma blit_loop_srcB (src_w width ratio : ℤ) (fb : Bool) (fc : Pix) (dB : ℕ) :
    ∀ (n : ℕ) (dp sp : ℤ) (st : BlitState),
      (blit_loop src_w width ratio fb fc dB n dp sp st).1.srcB = st.srcB := by
  intro n
  induction n with
  | zero => intro dp sp st; rfl
  | succ n ih =>
      intro dp sp st
      rw [blit_loop, ih, copy_color_srcB]
      split_ifs <;> rfl

lemma copy_pixels_internal_srcB
    (dst_w dst_h dst_x dst_y src_w src_h src_x src_y width height ratio : ℤ)
    (fb : Bool) (fc : Pix) (st : BlitState) :
    (copy_pixels_internal dst_w dst_h dst_x dst_y src_w src_h src_x src_y width height ratio
        fb fc st).1.srcB = st.srcB := by
  unfold copy_pixels_internal
  rcases hclip : clip src_w src_h dst_w dst_h ratio ⟨dst_x, dst_y, src_x, src_y, width, height⟩
    with _ | g
  · rfl
  · simp only []
    split_ifs <;>
      simp [memset_int_srcB, blit_loop_srcB, copy_color_srcB]

/-- The body of copy_pixels with its let binding expanded (definitional). -/
lemma copy_pixels_eq
    (dst_w dst_h dst_x dst_y src_w src_h src_x src_y width height ratio fill_color : ℤ)
    (fill_blank : Bool) (little : Bool) (st : BlitState) :
    copy_pixels dst_w dst_h dst_x dst_y src_w src_h src_x src_y width height ratio
        fill_blank fill_color little st =
      (match copy_pixels_internal dst_w dst_h dst_x dst_y src_w src_h src_x src_y width height
          ratio fill_blank
          (if fill_blank then convert_color little fill_color else ⟨0, 0, 0, 0⟩) st with
       | (st1, true) => st1
       | (st1, false) =>
          if fill_blank then
            memset_int 0 (if fill_blank then convert_color little fill_color else ⟨0, 0, 0, 0⟩)
              (sizeT (dst_w * dst_h)) st1
          else st1) := rfl

/-- Claim C10: a call to copy_pixels never stores through the source buffer:
the source component of the state is returned exactly as it was passed in,
for every combination of arguments. -/
theorem claim_C10_src_unchanged
    (dst_w dst_h dst_x dst_y src_w src_h src_x src_y width height ratio fill_color : ℤ)
    (fill_blank : Bool) (little : Bool) (st : BlitState) :
    (copy_pixels dst_w dst_h dst_x dst_y src_w src_h src_x src_y width height ratio
        fill_blank fill_color little st).srcB = st.srcB := by
  rw [copy_pixels_eq]
  rcases hint : copy_pixels_internal dst_w dst_h dst_x dst_y src_w src_h src_x src_y width height
      ratio fill_blank (if fill_blank then convert_color little fill_color else ⟨0, 0, 0, 0⟩) st
    with ⟨st1, b⟩
  have hsrc : st1.srcB = st.srcB := by
    have := copy_pixels_internal_srcB dst_w dst_h dst_x dst_y src_w src_h src_x src_y width height
      ratio fill_blank (if fill_blank then convert_color little fill_color else ⟨0, 0, 0, 0⟩) st
    rw [hint] at this
    exact this
  cases b
  · split_ifs <;> simpa using hsrc
  · exact hsrc

/-- Claim C9: for both detected endianness cases, unpacking the pixel
produced by convert_color from an external A,R,G,B color value yields
exactly the R, G, B, A channel bytes the caller meant by that value. -/
theorem claim_C9_convert_color (little : Bool) (v : ℤ) :
    color_to_rgba (convert_color little v) = (extR v, extG v, extB v, extA v) := by
  cases little <;>
    simp [convert_color, color_to_rgba, intByte, extR, extG, extB, extA]

/-- Claim C6: with ratio = 0 and fill_blank, the whole destination buffer is
set to the converted fill color (every pixel index in [0, dst_w * dst_h)
holds it) and nothing is read from the source, whatever the remaining
geometry arguments are.  The bound on dst_w * dst_h is the representability
of the C int expression (size_t)(dst_w * dst_h). -/
theorem claim_C6_fill_on_zero_ratio
    (dst_w dst_h dst_x dst_y src_w src_h src_x src_y width height ratio fill_color : ℤ)
    (little : Bool) (st : BlitState)
    (hr : ratio = 0) (hK : dst_w * dst_h < 2 ^ 64) (i : ℤ) (hi0 : 0 ≤ i)
    (hi : i < dst_w * dst_h) :
    (copy_pixels dst_w dst_h dst_x dst_y src_w src_h src_x src_y width height ratio
        true fill_color little st).dstB i = convert_color little fill_color ∧
    (copy_pixels dst_w dst_h dst_x dst_y src_w src_h src_x src_y width height ratio
        true fill_color little st).reads = st.reads := by
  subst hr
  have hclip : clip src_w src_h dst_w dst_h 0 ⟨dst_x, dst_y, src_x, src_y, width, height⟩
      = none := by
    unfold clip
    simp
  have hsz : ((sizeT (dst_w * dst_h)) : ℤ) = dst_w * dst_h :=
    sizeT_coe _ (by omega) hK
  have hrun : copy_pixels dst_w dst_h dst_x dst_y src_w src_h src_x src_y width height 0
      true fill_color little st
      = memset_int 0 (convert_color little fill_color) (sizeT (dst_w * dst_h)) st := by
    rw [copy_pixels_eq]
    unfold copy_pixels_internal
    rw [hclip]
    rfl
  rw [hrun]
  refine ⟨?_, rfl⟩
  simp only [memset_int]
  rw [if_pos ⟨hi0, by omega⟩]

/-- Witness for claim C6: ratio 0, fill_blank, a 2 x 2 destination and
opaque red; pixel 3 ends up red and the read trace is untouched. -/
theorem claim_C6_witness :
    (copy_pixels 2 2 0 0 4 4 0 0 4 4 0 true 0xFFFF0000 true demoState).dstB 3
      = convert_color true 0xFFFF0000 ∧
    (copy_pixels 2 2 0 0 4 4 0 0 4 4 0 true 0xFFFF0000 true demoState).reads
      = demoState.reads :=
  claim_C6_fill_on_zero_ratio 2 2 0 0 4 4 0 0 4 4 0 0xFFFF0000 true demoState rfl
    (by norm_num) 3 (by norm_num) (by norm_num)

/-- Claim C7: when clipping fails (the clip phase returns none) and
fill_blank is false, copy_pixels returns the state unchanged: no destination
byte is written, no trace entry is added. -/
theorem claim_C7_untouched_on_failure
    (dst_w dst_h dst_x dst_y src_w src_h src_x src_y width height ratio fill_color : ℤ)
    (little : Bool) (st : BlitState)
    (hc : clip src_w src_h dst_w dst_h ratio ⟨dst_x, dst_y, src_x, src_y, width, height⟩
      = none) :
    copy_pixels dst_w dst_h dst_x dst_y src_w src_h src_x src_y width height ratio
      false fill_color little st = st := by
  rw [copy_pixels_eq]
  unfold copy_pixels_internal
  rw [hc]
  rfl

/-- Witness for claim C7 at a concrete failing geometry (ratio 3 exceeds the
rounded width), on the concrete state demoState. -/
theorem claim_C7_witness :
    copy_pixels 4 4 0 0 4 4 0 0 2 2 3 false 0 true demoState = demoState :=
  claim_C7_untouched_on_failure 4 4 0 0 4 4 0 0 2 2 3 0 true demoState (by decide)

set_option maxRecDepth 100000 in
/-- Claim C1 fails on the code: at dst_w = 3, dst_h = 4, src 8 x 8, full
8 x 8 region, ratio 2, fill_blank true, the between-rows fill uses
(size_t)((dst_w - width) * 4) with clipped width 6 > dst_w, which wraps to
2^64 - 12, and the resulting memset_int range extends far beyond the 48-byte
destination buffer.  The statement: not every written range stays within
byte interval [0, dst_w * dst_h * 4). -/
theorem claim_C1_oob_write :
    ¬ ∀ p ∈ (copy_pixels 3 4 0 0 8 8 0 0 8 8 2 true 0 true demoState).writes,
        0 ≤ p.1 * 4 ∧ (p.1 + (p.2 : ℤ)) * 4 ≤ 3 * 4 * 4 := by
  decide

set_option maxRecDepth 100000 in
/-- Claim C2 fails on the code: at dst_w = 5, dst_h = 2, src 4 x 4, full
region, ratio 2, fill_blank true with external color 0xFFFF0000 (opaque
red), the copied rectangle covers columns 0..1 of each destination row, yet
the pixels at (row 0, columns 2 and 3) keep their previous value (9,9,9,9)
instead of the fill color: the code fills dst_w - width = 1 gap pixels, not
dst_w - width / ratio = 3.  Pixel 4 does receive the fill, showing where the
gap fill actually landed. -/
theorem claim_C2_gap_not_filled :
    convert_color true 0xFFFF0000 = ⟨255, 0, 0, 255⟩ ∧
    (copy_pixels 5 2 0 0 4 4 0 0 4 4 2 true 0xFFFF0000 true demoState).dstB 2 = ⟨9, 9, 9, 9⟩ ∧
    (copy_pixels 5 2 0 0 4 4 0 0 4 4 2 true 0xFFFF0000 true demoState).dstB 3 = ⟨9, 9, 9, 9⟩ ∧
    (copy_pixels 5 2 0 0 4 4 0 0 4 4 2 true 0xFFFF0000 true demoState).dstB 4
      = ⟨255, 0, 0, 255⟩ := by
  decide

set_option maxRecDepth 100000 in
/-- Counterexample to claim C3 as stated: for ratio = 12 and the block whose
every channel byte is 143, the exact per-channel average is
floor(143 * 144 / 144) = 143, but bilinear_color produces 134, because the
unsigned char remainder accumulator wraps mod 256 once y + num % count
exceeds 255 and the carry into the quotient is lost. -/
theorem claim_C3_counterexample :
    bilinear_color src143 0 12 12 ≠
      ⟨chanSum Pix.r (blockSamples src143 0 12 12) / 144,
       chanSum Pix.g (blockSamples src143 0 12 12) / 144,
       chanSum Pix.b (blockSamples src143 0 12 12) / 144,
       chanSum Pix.a (blockSamples src143 0 12 12) / 144⟩ := by
  decide

/-! ### Facts about the C-style floor and ceil to a multiple -/

lemma floor_dvd (n r : ℤ) : r ∣ floor n r := by
  simp only [floor]
  have hd := Int.tdiv_add_tmod n r
  split_ifs with h
  · exact ⟨n.tdiv r, by omega⟩
  · exact ⟨n.tdiv r, by omega⟩

lemma ceil_dvd (n r : ℤ) : r ∣ ceil n r := by
  simp only [ceil]
  have hd := Int.tdiv_add_tmod n r
  split_ifs with h
  · exact ⟨n.tdiv r, by omega⟩
  · refine ⟨n.tdiv r + 1, ?_⟩
    have h2 : r * (n.tdiv r + 1) = r * n.tdiv r + r := by ring
    omega

lemma ceil_ge (n r : ℤ) (hr : 0 < r) : n ≤ ceil n r := by
  simp only [ceil]
  have h1 := Int.tmod_lt_of_pos n hr
  split_ifs with h <;> omega

/-! ### What each clipping step guarantees -/

lemma clipNegSrcX_spec (r : ℤ) (hr : 0 < r) (s : ClipState) :
    (clipNegSrcX r s).width ≤ s.width ∧
    (r ∣ s.width → r ∣ (clipNegSrcX r s).width) ∧
    0 ≤ (clipNegSrcX r s).src_x ∧
    (clipNegSrcX r s).height = s.height ∧
    (clipNegSrcX r s).src_y = s.src_y ∧
    (clipNegSrcX r s).dst_y = s.dst_y := by
  simp only [clipNegSrcX]
  split_ifs with h
  · dsimp only
    have hge := ceil_ge (-s.src_x) r hr
    have hdvd := ceil_dvd (-s.src_x) r
    exact ⟨by omega, fun hw => dvd_sub hw hdvd, by omega, rfl, rfl, rfl⟩
  · exact ⟨le_refl _, fun hw => hw, by omega, rfl, rfl, rfl⟩

lemma clipNegDstX_spec (r : ℤ) (hr : 0 < r) (s : ClipState) :
    (clipNegDstX r s).width ≤ s.width ∧
    (r ∣ s.width → r ∣ (clipNegDstX r s).width) ∧
    0 ≤ (clipNegDstX r s).dst_x ∧
    (0 ≤ s.src_x → 0 ≤ (clipNegDstX r s).src_x) ∧
    (clipNegDstX r s).height = s.height ∧
    (clipNegDstX r s).src_y = s.src_y ∧
    (clipNegDstX r s).dst_y = s.dst_y := by
  simp only [clipNegDstX]
  split_ifs with h
  · dsimp only
    have hpos : 0 < -s.dst_x * r := mul_pos (by omega) hr
    exact ⟨by omega, fun hw => dvd_sub hw ⟨-s.dst_x, by ring⟩, by omega, by omega,
      rfl, rfl, rfl⟩
  · exact ⟨le_refl _, fun hw => hw, by omega, fun h0 => h0, rfl, rfl, rfl⟩

lemma clipNegSrcY_spec (r : ℤ) (hr : 0 < r) (s : ClipState) :
    (clipNegSrcY r s).height ≤ s.height ∧
    (r ∣ s.height → r ∣ (clipNegSrcY r s).height) ∧
    0 ≤ (clipNegSrcY r s).src_y ∧
    (clipNegSrcY r s).width = s.width ∧
    (clipNegSrcY r s).src_x = s.src_x ∧
    (clipNegSrcY r s).dst_x = s.dst_x := by
  simp only [clipNegSrcY]
  split_ifs with h
  · dsimp only
    have hge := ceil_ge (-s.src_y) r hr
    have hdvd := ceil_dvd (-s.src_y) r
    exact ⟨by omega, fun hw => dvd_sub hw hdvd, by omega, rfl, rfl, rfl⟩
  · exact ⟨le_refl _, fun hw => hw, by omega, rfl, rfl, rfl⟩

lemma clipNegDstY_spec (r : ℤ) (hr : 0 < r) (s : ClipState) :
    (clipNegDstY r s).height ≤ s.height ∧
    (r ∣ s.height → r ∣ (clipNegDstY r s).height) ∧
    0 ≤ (clipNegDstY r s).dst_y ∧
    (0 ≤ s.src_y → 0 ≤ (clipNegDstY r s).src_y) ∧
    (clipNegDstY r s).width = s.width ∧
    (clipNegDstY r s).src_x = s.src_x ∧
    (clipNegDstY r s).dst_x = s.dst_x := by
  simp only [clipNegDstY]
  split_ifs with h
  · dsimp only
    have hpos : 0 < -s.dst_y * r := mul_pos (by omega) hr
    exact ⟨by omega, fun hw => dvd_sub hw ⟨-s.dst_y, by ring⟩, by omega, by omega,
      rfl, rfl, rfl⟩
  · exact ⟨le_refl _, fun hw => hw, by omega, fun h0 => h0, rfl, rfl, rfl⟩

lemma clipFarSrcX_spec (src_w r : ℤ) (hr : 0 < r) (s : ClipState) :
    (clipFarSrcX src_w r s).width ≤ s.width ∧
    (r ∣ s.width → r ∣ (clipFarSrcX src_w r s).width) ∧
    s.src_x + (clipFarSrcX src_w r s).width ≤ src_w ∧
    (clipFarSrcX src_w r s).src_x = s.src_x ∧
    (clipFarSrcX src_w r s).dst_x = s.dst_x ∧
    (clipFarSrcX src_w r s).src_y = s.src_y ∧
    (clipFarSrcX src_w r s).dst_y = s.dst_y ∧
    (clipFarSrcX src_w r s).height = s.height := by
  simp only [clipFarSrcX]
  split_ifs with h
  · dsimp only
    have hge := ceil_ge (s.src_x + s.width - src_w) r hr
    have hdvd := ceil_dvd (s.src_x + s.width - src_w) r
    exact ⟨by omega, fun hw => dvd_sub hw hdvd, by omega, rfl, rfl, rfl, rfl, rfl⟩
  · exact ⟨le_refl _, fun hw => hw, by omega, rfl, rfl, rfl, rfl, rfl⟩

lemma clipFarDstX_spec (dst_w r : ℤ) (hr : 0 < r) (s : ClipState) (hdvd : r ∣ s.width) :
    (clipFarDstX dst_w r s).width ≤ s.width ∧
    r ∣ (clipFarDstX dst_w r s).width ∧
    (clipFarDstX dst_w r s).dst_x + ((clipFarDstX dst_w r s).width).tdiv r ≤ dst_w ∧
    (clipFarDstX dst_w r s).src_x = s.src_x ∧
    (clipFarDstX dst_w r s).dst_x = s.dst_x ∧
    (clipFarDstX dst_w r s).src_y = s.src_y ∧
    (clipFarDstX dst_w r s).dst_y = s.dst_y ∧
    (clipFarDstX dst_w r s).height = s.height := by
  obtain ⟨k, hk⟩ := hdvd
  have hdiv : s.width.tdiv r = k := by
    rw [hk, Int.mul_tdiv_cancel_left k (by omega)]
  simp only [clipFarDstX]
  split_ifs with h
  · dsimp only
    have hk2 : s.width - (s.dst_x + s.width.tdiv r - dst_w) * r
        = r * (k - (s.dst_x + s.width.tdiv r - dst_w)) := by rw [hk]; ring
    have hdiv2 : (s.width - (s.dst_x + s.width.tdiv r - dst_w) * r).tdiv r
        = k - (s.dst_x + s.width.tdiv r - dst_w) := by
      rw [hk2, Int.mul_tdiv_cancel_left _ (by omega)]
    have hpos : 0 < (s.dst_x + s.width.tdiv r - dst_w) * r := mul_pos (by omega) hr
    refine ⟨by omega, ⟨_, hk2⟩, ?_, rfl, rfl, rfl, rfl, rfl⟩
    rw [hdiv2]
    omega
  · exact ⟨le_refl _, ⟨k, hk⟩, by omega, rfl, rfl, rfl, rfl, rfl⟩

lemma clipFarSrcY_spec (src_h r : ℤ) (hr : 0 < r) (s : ClipState) :
    (clipFarSrcY src_h r s).height ≤ s.height ∧
    (r ∣ s.height → r ∣ (clipFarSrcY src_h r s).height) ∧
    s.src_y + (clipFarSrcY src_h r s).height ≤ src_h ∧
    (clipFarSrcY src_h r s).src_x = s.src_x ∧
    (clipFarSrcY src_h r s).dst_x = s.dst_x ∧
    (clipFarSrcY src_h r s).src_y = s.src_y ∧
    (clipFarSrcY src_h r s).dst_y = s.dst_y ∧
    (clipFarSrcY src_h r s).width = s.width := by
  simp only [clipFarSrcY]
  split_ifs with h
  · dsimp only
    have hge := ceil_ge (s.src_y + s.height - src_h) r hr
    have hdvd := ceil_dvd (s.src_y + s.height - src_h) r
    exact ⟨by omega, fun hw => dvd_sub hw hdvd, by omega, rfl, rfl, rfl, rfl, rfl⟩
  · exact ⟨le_refl _, fun hw => hw, by omega, rfl, rfl, rfl, rfl, rfl⟩

lemma clipFarDstY_spec (dst_h r : ℤ) (hr : 0 < r) (s : ClipState) (hdvd : r ∣ s.height) :
    (clipFarDstY dst_h r s).height ≤ s.height ∧
    r ∣ (clipFarDstY dst_h r s).height ∧
    (clipFarDstY dst_h r s).dst_y + ((clipFarDstY dst_h r s).height).tdiv r ≤ dst_h ∧
    (clipFarDstY dst_h r s).src_x = s.src_x ∧
    (clipFarDstY dst_h r s).dst_x = s.dst_x ∧
    (clipFarDstY dst_h r s).src_y = s.src_y ∧
    (clipFarDstY dst_h r s).dst_y = s.dst_y ∧
    (clipFarDstY dst_h r s).width = s.width := by
  obtain ⟨k, hk⟩ := hdvd
  have hdiv : s.height.tdiv r = k := by
    rw [hk, Int.mul_tdiv_cancel_left k (by omega)]
  simp only [clipFarDstY]
  split_ifs with h
  · dsimp only
    have hk2 : s.height - (s.dst_y + s.height.tdiv r - dst_h) * r
        = r * (k - (s.dst_y + s.height.tdiv r - dst_h)) := by rw [hk]; ring
    have hdiv2 : (s.height - (s.dst_y + s.height.tdiv r - dst_h) * r).tdiv r
        = k - (s.dst_y + s.height.tdiv r - dst_h) := by
      rw [hk2, Int.mul_tdiv_cancel_left _ (by omega)]
    have hpos : 0 < (s.dst_y + s.height.tdiv r - dst_h) * r := mul_pos (by omega) hr
    refine ⟨by omega, ⟨_, hk2⟩, ?_, rfl, rfl, rfl, rfl, rfl⟩
    rw [hdiv2]
    omega
  · exact ⟨le_refl _, ⟨k, hk⟩, by omega, rfl, rfl, rfl, rfl, rfl⟩

/-- Claim C8: whenever clipping succeeds, after each clipping step both the
remaining width and the remaining height are positive exact multiples of
ratio, and the final clipped rectangle lies fully inside the source buffer
(src_x >= 0, src_x + width <= src_w, same for y) and inside the destination
buffer (dst_x >= 0, dst_x + width/ratio <= dst_w, same for y). -/
theorem claim_C8_clip_invariants (src_w src_h dst_w dst_h ratio : ℤ) (s0 g : ClipState)
    (h : clip src_w src_h dst_w dst_h ratio s0 = some g) :
    (∀ s ∈ clipStages src_w src_h dst_w dst_h ratio s0,
        0 < s.width ∧ 0 < s.height ∧ ratio ∣ s.width ∧ ratio ∣ s.height) ∧
    0 ≤ g.src_x ∧ g.src_x + g.width ≤ src_w ∧
    0 ≤ g.src_y ∧ g.src_y + g.height ≤ src_h ∧
    0 ≤ g.dst_x ∧ g.dst_x + g.width.tdiv ratio ≤ dst_w ∧
    0 ≤ g.dst_y ∧ g.dst_y + g.height.tdiv ratio ≤ dst_h := by
  simp only [clip] at h
  split_ifs at h with h0 hwh hw2 hh3 hw4 hh5
  have hg := Option.some.inj h
  subst hg
  have hr : 0 < ratio := by omega
  set s1 := clipFloor ratio s0 with hs1
  set s2a := clipNegSrcX ratio s1 with hs2a
  set s2 := clipNegDstX ratio s2a with hs2
  set s3a := clipNegSrcY ratio s2 with hs3a
  set s3 := clipNegDstY ratio s3a with hs3
  set s4a := clipFarSrcX src_w ratio s3 with hs4a
  set s4 := clipFarDstX dst_w ratio s4a with hs4
  set s5a := clipFarSrcY src_h ratio s4 with hs5a
  obtain ⟨hA1, hA2, hA3, hA4, hA5, hA6⟩ := clipNegSrcX_spec ratio hr s1
  rw [← hs2a] at hA1 hA2 hA3 hA4 hA5 hA6
  obtain ⟨hB1, hB2, hB3, hB4, hB5, hB6, hB7⟩ := clipNegDstX_spec ratio hr s2a
  rw [← hs2] at hB1 hB2 hB3 hB4 hB5 hB6 hB7
  obtain ⟨hC1, hC2, hC3, hC4, hC5, hC6⟩ := clipNegSrcY_spec ratio hr s2
  rw [← hs3a] at hC1 hC2 hC3 hC4 hC5 hC6
  obtain ⟨hD1, hD2, hD3, hD4, hD5, hD6, hD7⟩ := clipNegDstY_spec ratio hr s3a
  rw [← hs3] at hD1 hD2 hD3 hD4 hD5 hD6 hD7
  obtain ⟨hE1, hE2, hE3, hE4, hE5, hE6, hE7, hE8⟩ := clipFarSrcX_spec src_w ratio hr s3
  rw [← hs4a] at hE1 hE2 hE3 hE4 hE5 hE6 hE7 hE8
  have hd1w : ratio ∣ s1.width := by rw [hs1]; exact floor_dvd _ _
  have hd1h : ratio ∣ s1.height := by rw [hs1]; exact floor_dvd _ _
  have hd2aw : ratio ∣ s2a.width := hA2 hd1w
  have hd2w : ratio ∣ s2.width := hB2 hd2aw
  have hd3aw : ratio ∣ s3a.width := by rw [hC4]; exact hd2w
  have hd3w : ratio ∣ s3.width := by rw [hD5]; exact hd3aw
  have hd4aw : ratio ∣ s4a.width := hE2 hd3w
  obtain ⟨hF1, hF2, hF3, hF4, hF5, hF6, hF7, hF8⟩ := clipFarDstX_spec dst_w ratio hr s4a hd4aw
  rw [← hs4] at hF1 hF2 hF3 hF4 hF5 hF6 hF7 hF8
  obtain ⟨hG1, hG2, hG3, hG4, hG5, hG6, hG7, hG8⟩ := clipFarSrcY_spec src_h ratio hr s4
  rw [← hs5a] at hG1 hG2 hG3 hG4 hG5 hG6 hG7 hG8
  have hd2ah : ratio ∣ s2a.height := by rw [hA4]; exact hd1h
  have hd2h : ratio ∣ s2.height := by rw [hB5]; exact hd2ah
  have hd3ah : ratio ∣ s3a.height := hC2 hd2h
  have hd3h : ratio ∣ s3.height := hD2 hd3ah
  have hd4ah : ratio ∣ s4a.height := by rw [hE8]; exact hd3h
  have hd4h : ratio ∣ s4.height := by rw [hF8]; exact hd4ah
  have hd5ah : ratio ∣ s5a.height := hG2 hd4h
  obtain ⟨hH1, hH2, hH3, hH4, hH5, hH6, hH7, hH8⟩ := clipFarDstY_spec dst_h ratio hr s5a hd5ah
  have hd5aw : ratio ∣ s5a.width := by rw [hG8]; exact hF2
  have hd5w : ratio ∣ (clipFarDstY dst_h ratio s5a).width := by rw [hH8]; exact hd5aw
  -- positivity of the widths at every stage
  have pw2 : 0 < s2.width := by omega
  have pw2a : 0 < s2a.width := by omega
  have pw1 : 0 < s1.width := by omega
  have pw3a : 0 < s3a.width := by omega
  have pw3 : 0 < s3.width := by omega
  have pw4 : 0 < s4.width := by omega
  have pw4a : 0 < s4a.width := by omega
  have pw5a : 0 < s5a.width := by omega
  have pw5 : 0 < (clipFarDstY dst_h ratio s5a).width := by omega
  -- positivity of the heights at every stage
  have ph5 : 0 < (clipFarDstY dst_h ratio s5a).height := by omega
  have ph5a : 0 < s5a.height := by omega
  have ph4 : 0 < s4.height := by omega
  have ph4a : 0 < s4a.height := by omega
  have ph3 : 0 < s3.height := by omega
  have ph3a : 0 < s3a.height := by omega
  have ph2 : 0 < s2.height := by omega
  have ph2a : 0 < s2a.height := by omega
  have ph1 : 0 < s1.height := by omega
  refine ⟨?_, ?_, ?_, ?_, ?_, ?_, ?_, ?_, ?_⟩
  · intro s hs
    simp only [clipStages, List.mem_cons, List.not_mem_nil, or_false] at hs
    rcases hs with rfl | rfl | rfl | rfl | rfl | rfl | rfl | rfl | rfl
    · exact ⟨pw1, ph1, hd1w, hd1h⟩
    · exact ⟨pw2a, ph2a, hd2aw, hd2ah⟩
    · exact ⟨pw2, ph2, hd2w, hd2h⟩
    · exact ⟨pw3a, ph3a, hd3aw, hd3ah⟩
    · exact ⟨pw3, ph3, hd3w, hd3h⟩
    · exact ⟨pw4a, ph4a, hd4aw, hd4ah⟩
    · exact ⟨pw4, ph4, hF2, hd4h⟩
    · exact ⟨pw5a, ph5a, hd5aw, hd5ah⟩
    · exact ⟨pw5, ph5, hd5w, hH2⟩
  · -- 0 <= src_x
    have h2 : 0 ≤ s2.src_x := hB4 hA3
    have h3a : s3a.src_x = s2.src_x := hC5
    have h3 : s3.src_x = s3a.src_x := hD6
    have h4a : s4a.src_x = s3.src_x := hE4
    have h4 : s4.src_x = s4a.src_x := hF4
    have h5a : s5a.src_x = s4.src_x := hG4
    have h5 : (clipFarDstY dst_h ratio s5a).src_x = s5a.src_x := hH4
    omega
  · -- src_x + width <= src_w
    have h4a : s3.src_x + s4a.width ≤ src_w := hE3
    have h4 : s4.src_x = s4a.src_x := hF4
    have h4a2 : s4a.src_x = s3.src_x := hE4
    have h5a : s5a.src_x = s4.src_x := hG4
    have h5 : (clipFarDstY dst_h ratio s5a).src_x = s5a.src_x := hH4
    have hw5a : s5a.width = s4.width := hG8
    have hw5 : (clipFarDstY dst_h ratio s5a).width = s5a.width := hH8
    omega
  · -- 0 <= src_y
    have h3 : 0 ≤ s3.src_y := hD4 hC3
    have h4a : s4a.src_y = s3.src_y := hE6
    have h4 : s4.src_y = s4a.src_y := hF6
    have h5a : s5a.src_y = s4.src_y := hG6
    have h5 : (clipFarDstY dst_h ratio s5a).src_y = s5a.src_y := hH6
    omega
  · -- src_y + height <= src_h
    have h5a : s4.src_y + s5a.height ≤ src_h := hG3
    have h5y : (clipFarDstY dst_h ratio s5a).src_y = s5a.src_y := hH6
    have h5a2 : s5a.src_y = s4.src_y := hG6
    have h5h : (clipFarDstY dst_h ratio s5a).height ≤ s5a.height := hH1
    omega
  · -- 0 <= dst_x
    have h2 : 0 ≤ s2.dst_x := hB3
    have h3a : s3a.dst_x = s2.dst_x := hC6
    have h3 : s3.dst_x = s3a.dst_x := hD7
    have h4a : s4a.dst_x = s3.dst_x := hE5
    have h4 : s4.dst_x = s4a.dst_x := hF5
    have h5a : s5a.dst_x = s4.dst_x := hG5
    have h5 : (clipFarDstY dst_h ratio s5a).dst_x = s5a.dst_x := hH5
    omega
  · -- dst_x + width/ratio <= dst_w
    have h4 : s4.dst_x + s4.width.tdiv ratio ≤ dst_w := hF3
    have h5a : s5a.dst_x = s4.dst_x := hG5
    have h5 : (clipFarDstY dst_h ratio s5a).dst_x = s5a.dst_x := hH5
    have hw5a : s5a.width = s4.width := hG8
    have hw5 : (clipFarDstY dst_h ratio s5a).width = s5a.width := hH8
    rw [h5, h5a, hw5, hw5a]
    exact h4
  · -- 0 <= dst_y
    have h3 : 0 ≤ s3.dst_y := hD3
    have h4a : s4a.dst_y = s3.dst_y := hE7
    have h4 : s4.dst_y = s4a.dst_y := hF7
    have h5a : s5a.dst_y = s4.dst_y := hG7
    have h5 : (clipFarDstY dst_h ratio s5a).dst_y = s5a.dst_y := hH7
    omega
  · -- dst_y + height/ratio <= dst_h
    exact hH3

/-- Witness for claim C8 at a concrete mixed geometry (negative src_x and
dst_x, oversized width and a non-multiple height): clipping succeeds, so the
final in-bounds facts of the theorem hold for the clipped rectangle
(1, 0, 1, 0, 6, 8). -/
theorem claim_C8_witness :
    0 ≤ (ClipState.mk 1 0 1 0 6 8).src_x ∧
    (ClipState.mk 1 0 1 0 6 8).src_x + (ClipState.mk 1 0 1 0 6 8).width ≤ 8 ∧
    0 ≤ (ClipState.mk 1 0 1 0 6 8).src_y ∧
    (ClipState.mk 1 0 1 0 6 8).src_y + (ClipState.mk 1 0 1 0 6 8).height ≤ 8 ∧
    0 ≤ (ClipState.mk 1 0 1 0 6 8).dst_x ∧
    (ClipState.mk 1 0 1 0 6 8).dst_x + ((ClipState.mk 1 0 1 0 6 8).width).tdiv 2 ≤ 4 ∧
    0 ≤ (ClipState.mk 1 0 1 0 6 8).dst_y ∧
    (ClipState.mk 1 0 1 0 6 8).dst_y + ((ClipState.mk 1 0 1 0 6 8).height).tdiv 2 ≤ 4 :=
  (claim_C8_clip_invariants 8 8 4 4 2 ⟨-1, 0, -3, 0, 10, 9⟩ ⟨1, 0, 1, 0, 6, 8⟩ (by decide)).2

/-! ### Exactness of the streaming per-channel average while count stays
at most 128 (so that the unsigned char remainder accumulator cannot wrap) -/

lemma average_step_eq (count v S : ℕ) (hc1 : 0 < count) (hc : count ≤ 128)
    (hv : v < 256) (hS : S + 255 ≤ 255 * count) :
    average_step v count (S / count) (S % count) = ((S + v) / count, (S + v) % count) := by
  have hmS : S % count < count := Nat.mod_lt _ hc1
  have hmv : v % count < count := Nat.mod_lt _ hc1
  have hq : S / count + v / count ≤ (S + v) / count := by
    rw [Nat.le_div_iff_mul_le hc1]
    have h1 : S / count * count ≤ S := Nat.div_mul_le_self S count
    have h2 : v / count * count ≤ v := Nat.div_mul_le_self v count
    have h3 : (S / count + v / count) * count = S / count * count + v / count * count :=
      Nat.add_mul _ _ _
    omega
  have hub : (S + v) / count ≤ 255 := by
    have h3 : (S + v) / count ≤ 255 * count / count := Nat.div_le_div_right (by omega)
    rwa [Nat.mul_div_cancel 255 hc1] at h3
  have hsum : S + v = count * (S / count + v / count) + (S % count + v % count) := by
    have h1 := Nat.div_add_mod S count
    have h2 := Nat.div_add_mod v count
    have h3 : count * (S / count + v / count)
        = count * (S / count) + count * (v / count) := Nat.mul_add _ _ _
    omega
  have hdiv : (S + v) / count = S / count + v / count + (S % count + v % count) / count := by
    rw [hsum, Nat.mul_add_div hc1]
  have hmod : (S + v) % count = (S % count + v % count) % count := by
    rw [hsum, Nat.mul_add_mod]
  unfold average_step
  simp only [Nat.mod_eq_of_lt (show S / count + v / count < 256 by omega)]
  by_cases hcarry : count ≤ (S % count + v % count) % 256
  · rw [if_pos hcarry]
    rw [Nat.mod_eq_of_lt (show S % count + v % count < 256 by omega)] at hcarry ⊢
    have hd1 : (S % count + v % count) / count = 1 :=
      Nat.div_eq_of_lt_le (by omega) (by omega)
    have hm1 : (S % count + v % count) % count = S % count + v % count - count := by
      rw [Nat.mod_eq_sub_mod hcarry, Nat.mod_eq_of_lt (by omega)]
    rw [Nat.mod_eq_of_lt (show S / count + v / count + 1 < 256 by omega)]
    rw [Prod.mk.injEq]
    omega
  · rw [if_neg hcarry]
    rw [Nat.mod_eq_of_lt (show S % count + v % count < 256 by omega)] at hcarry ⊢
    have hd0 : (S % count + v % count) / count = 0 := Nat.div_eq_of_lt (by omega)
    have hm0 : (S % count + v % count) % count = S % count + v % count :=
      Nat.mod_eq_of_lt (by omega)
    rw [Prod.mk.injEq]
    omega

lemma avg_foldl_eq (count : ℕ) (hc1 : 0 < count) (hc : count ≤ 128) :
    ∀ (vs : List ℕ) (S : ℕ), (∀ v ∈ vs, v < 256) → S + 255 * vs.length ≤ 255 * count →
      vs.foldl (fun a v => average_step v count a.1 a.2) (S / count, S % count)
        = ((S + vs.sum) / count, (S + vs.sum) % count) := by
  intro vs
  induction vs with
  | nil => intro S hv hS; simp
  | cons v vs ih =>
      intro S hv hS
      have hlen : S + 255 * (vs.length + 1) ≤ 255 * count := by
        simpa [List.length_cons] using hS
      have hv0 : v < 256 := hv v (List.mem_cons_self _ _)
      have hstep := average_step_eq count v S hc1 hc hv0 (by omega)
      simp only [List.foldl_cons]
      rw [hstep, ih (S + v) (fun u hu => hv u (List.mem_cons_of_mem _ hu))
        (by have : v ≤ 255 := by omega
            simp only [List.length_cons] at hS ⊢
            omega)]
      rw [List.sum_cons, Nat.add_assoc]

lemma bilinear_fold_r (count : ℕ) :
    ∀ (l : List Pix) (acc : AvgAcc),
      ((l.foldl (bilinear_step count) acc).r1, (l.foldl (bilinear_step count) acc).r2)
        = l.foldl (fun a p => average_step p.r count a.1 a.2) (acc.r1, acc.r2) := by
  intro l
  induction l with
  | nil => intro acc; rfl
  | cons p l ih =>
      intro acc
      simp only [List.foldl_cons]
      rw [ih]
      rfl

lemma bilinear_fold_g (count : ℕ) :
    ∀ (l : List Pix) (acc : AvgAcc),
      ((l.foldl (bilinear_step count) acc).g1, (l.foldl (bilinear_step count) acc).g2)
        = l.foldl (fun a p => average_step p.g count a.1 a.2) (acc.g1, acc.g2) := by
  intro l
  induction l with
  | nil => intro acc; rfl
  | cons p l ih =>
      intro acc
      simp only [List.foldl_cons]
      rw [ih]
      rfl

lemma bilinear_fold_b (count : ℕ) :
    ∀ (l : List Pix) (acc : AvgAcc),
      ((l.foldl (bilinear_step count) acc).b1, (l.foldl (bilinear_step count) acc).b2)
        = l.foldl (fun a p => average_step p.b count a.1 a.2) (acc.b1, acc.b2) := by
  intro l
  induction l with
  | nil => intro acc; rfl
  | cons p l ih =>
      intro acc
      simp only [List.foldl_cons]
      rw [ih]
      rfl

lemma bilinear_fold_a (count : ℕ) :
    ∀ (l : List Pix) (acc : AvgAcc),
      ((l.foldl (bilinear_step count) acc).a1, (l.foldl (bilinear_step count) acc).a2)
        = l.foldl (fun a p => average_step p.a count a.1 a.2) (acc.a1, acc.a2) := by
  intro l
  induction l with
  | nil => intro acc; rfl
  | cons p l ih =>
      intro acc
      simp only [List.foldl_cons]
      rw [ih]
      rfl

lemma length_flatMap_const {α β : Type} (l : List α) (f : α → List β) (m : ℕ)
    (h : ∀ x ∈ l, (f x).length = m) : (l.flatMap f).length = l.length * m := by
  induction l with
  | nil => simp
  | cons x l ih =>
      simp only [List.flatMap_cons, List.length_append, List.length_cons]
      rw [h x (List.mem_cons_self _ _), ih (fun y hy => h y (List.mem_cons_of_mem _ hy))]
      ring

lemma blockSamples_length (srcB : ℤ → Pix) (ptr w ratio : ℤ) :
    (blockSamples srcB ptr w ratio).length = ratio.toNat * ratio.toNat := by
  unfold blockSamples
  rw [length_flatMap_const (List.range ratio.toNat)
      (fun (i : ℕ) => (List.range ratio.toNat).map fun (j : ℕ) => srcB (ptr + w * (i : ℤ) + (j : ℤ)))
      ratio.toNat (by intro x hx; rw [List.length_map, List.length_range]), List.length_range]

/-- One channel of the claim C3 computation, shared by the four channels:
the foldl with channel selector f on a sample list of length count produces
the exact floor average of that channel. -/
lemma chan_fold_exact (count : ℕ) (hc1 : 0 < count) (hc : count ≤ 128)
    (f : Pix → ℕ) (l : List Pix) (hlen : l.length = count)
    (hval : ∀ p ∈ l, f p < 256) :
    l.foldl (fun a p => average_step (f p) count a.1 a.2) (0, 0)
      = (chanSum f l / count, chanSum f l % count) := by
  have h := avg_foldl_eq count hc1 hc (l.map f) 0
    (by intro v hv
        rcases List.mem_map.mp hv with ⟨p, hp, rfl⟩
        exact hval p hp)
    (by simp [List.length_map, hlen])
  rw [List.foldl_map] at h
  simpa [chanSum, Nat.zero_div, Nat.zero_mod] using h

/-- Claim C3 (amended): for every ratio with 2 <= ratio <= 11 and every
ratio x ratio block of source pixels with channel values in [0, 255],
bilinear_color produces a destination pixel whose each channel equals
floor(sum of that channel over the block / (ratio * ratio)), exactly, for
each of the four channels independently.  (For ratio >= 12 the unsigned
char remainder accumulator can wrap, see the counterexample.) -/
theorem claim_C3_average_exact (srcB : ℤ → Pix) (ptr w ratio : ℤ)
    (h2 : 2 ≤ ratio) (h11 : ratio ≤ 11)
    (hval : ∀ p ∈ blockSamples srcB ptr w ratio, p.valid) :
    bilinear_color srcB ptr w ratio =
      ⟨chanSum Pix.r (blockSamples srcB ptr w ratio) / (ratio * ratio).toNat,
       chanSum Pix.g (blockSamples srcB ptr w ratio) / (ratio * ratio).toNat,
       chanSum Pix.b (blockSamples srcB ptr w ratio) / (ratio * ratio).toNat,
       chanSum Pix.a (blockSamples srcB ptr w ratio) / (ratio * ratio).toNat⟩ := by
  have hcnt1 : 0 < (ratio * ratio).toNat := by
    have h4 : (2 : ℤ) * 2 ≤ ratio * ratio := by nlinarith
    omega
  have hcnt : (ratio * ratio).toNat ≤ 128 := by
    have h4 : ratio * ratio ≤ 11 * 11 := by nlinarith
    omega
  have hlen : (blockSamples srcB ptr w ratio).length = (ratio * ratio).toNat := by
    rw [blockSamples_length]
    obtain ⟨n, rfl⟩ : ∃ n : ℕ, ratio = (n : ℤ) :=
      ⟨ratio.toNat, (Int.toNat_of_nonneg (by omega)).symm⟩
    rw [← Int.natCast_mul, Int.toNat_natCast, Int.toNat_natCast]
  have hfr := chan_fold_exact _ hcnt1 hcnt Pix.r _ hlen
    (fun p hp => (hval p hp).1)
  have hfg := chan_fold_exact _ hcnt1 hcnt Pix.g _ hlen
    (fun p hp => (hval p hp).2.1)
  have hfb := chan_fold_exact _ hcnt1 hcnt Pix.b _ hlen
    (fun p hp => (hval p hp).2.2.1)
  have hfa := chan_fold_exact _ hcnt1 hcnt Pix.a _ hlen
    (fun p hp => (hval p hp).2.2.2)
  have hr := bilinear_fold_r ((ratio * ratio).toNat) (blockSamples srcB ptr w ratio)
    ⟨0, 0, 0, 0, 0, 0, 0, 0⟩
  have hg := bilinear_fold_g ((ratio * ratio).toNat) (blockSamples srcB ptr w ratio)
    ⟨0, 0, 0, 0, 0, 0, 0, 0⟩
  have hb := bilinear_fold_b ((ratio * ratio).toNat) (blockSamples srcB ptr w ratio)
    ⟨0, 0, 0, 0, 0, 0, 0, 0⟩
  have ha := bilinear_fold_a ((ratio * ratio).toNat) (blockSamples srcB ptr w ratio)
    ⟨0, 0, 0, 0, 0, 0, 0, 0⟩
  rw [hfr] at hr
  rw [hfg] at hg
  rw [hfb] at hb
  rw [hfa] at ha
  unfold bilinear_color
  rw [Pix.mk.injEq]
  exact ⟨congrArg Prod.fst hr, congrArg Prod.fst hg,
    congrArg Prod.fst hb, congrArg Prod.fst ha⟩

/-- Witness for the amended claim C3 at ratio 2 on the constant source of
demoState: the hypotheses hold and the four channels are the exact floor
averages. -/
theorem claim_C3_witness :
    bilinear_color demoState.srcB 0 2 2 =
      ⟨chanSum Pix.r (blockSamples demoState.srcB 0 2 2) / ((2 : ℤ) * 2).toNat,
       chanSum Pix.g (blockSamples demoState.srcB 0 2 2) / ((2 : ℤ) * 2).toNat,
       chanSum Pix.b (blockSamples demoState.srcB 0 2 2) / ((2 : ℤ) * 2).toNat,
       chanSum Pix.a (blockSamples demoState.srcB 0 2 2) / ((2 : ℤ) * 2).toNat⟩ :=
  claim_C3_average_exact demoState.srcB 0 2 2 (by omega) (by omega) (by decide)

/-! ### The destination pixels copy_color_internal writes -/

lemma copy_color_internal_dstB (src_w ratio : ℤ) :
    ∀ (n : ℕ) (dp sp : ℤ) (st : BlitState) (i : ℤ),
      (copy_color_internal src_w ratio n dp sp st).dstB i =
        if dp ≤ i ∧ i < dp + (n : ℤ) then
          bilinear_color st.srcB (sp + (i - dp) * ratio) src_w ratio
        else st.dstB i := by
  intro n
  induction n with
  | zero =>
      intro dp sp st i
      rw [copy_color_internal, if_neg (by push_cast; omega)]
  | succ n ih =>
      intro dp sp st i
      rw [copy_color_internal, ih]
      by_cases h1 : dp + 1 ≤ i ∧ i < dp + 1 + (n : ℤ)
      · rw [if_pos h1, if_pos (by push_cast at h1 ⊢; omega)]
        have harg : sp + ratio + (i - (dp + 1)) * ratio = sp + (i - dp) * ratio := by ring
        rw [writePixel_srcB, addReads_srcB, harg]
      · rw [if_neg h1]
        by_cases h2 : i = dp
        · subst h2
          rw [if_pos (by push_cast; omega)]
          have harg : i + (i - i) * ratio = i := by ring
          simp only [writePixel, addReads, if_pos rfl]
          rw [show i - i = 0 by ring]
          norm_num
        · rw [if_neg (by push_cast at h1 ⊢; omega)]
          simp [writePixel, addReads, h2]

/-- Claim C4 (amended): for ratio >= 2, copy_color invoked with source
pixel count "count" divides count by ratio and writes exactly the
count / ratio destination pixels starting at dstPos; the k-th of them is
the Block Averager result for the block at source offset k * ratio, i.e.
one bilinear_color call per output pixel with the source advanced by ratio
pixels per iteration; every other destination pixel is untouched. -/
theorem claim_C4_row_copier (src_w count ratio dp sp : ℤ) (st : BlitState)
    (h2 : 2 ≤ ratio) (i : ℤ) :
    (copy_color src_w count ratio dp sp st).dstB i =
      if dp ≤ i ∧ i < dp + ((count.tdiv ratio).toNat : ℤ) then
        bilinear_color st.srcB (sp + (i - dp) * ratio) src_w ratio
      else st.dstB i := by
  unfold copy_color
  rw [if_neg (by omega)]
  exact copy_color_internal_dstB src_w ratio _ dp sp st i

/-- Witness for the amended claim C4 at count 4, ratio 2, on markState:
destination pixel 1 receives the average of the block at source offset 2. -/
theorem claim_C4_witness :
    (copy_color 4 4 2 0 0 markState).dstB 1 =
      if (0 : ℤ) ≤ 1 ∧ (1 : ℤ) < 0 + ((((4 : ℤ).tdiv 2).toNat : ℤ)) then
        bilinear_color markState.srcB (0 + (1 - 0) * 2) 4 2
      else markState.dstB 1 :=
  claim_C4_row_copier 4 4 2 0 0 markState (by omega) 1

set_option maxRecDepth 100000 in
/-- Counterexample to claim C4 as stated: copy_color invoked with
count = 4 and ratio = 2 does not write 4 output pixels; it divides count by
ratio and writes only 2, so pixel index 2 is covered by no written range. -/
theorem claim_C4_counterexample :
    ¬ ∀ k : ℕ, k < 4 → writtenIn ((copy_color 4 4 2 0 0 markState).writes) (k : ℤ) := by
  decide

/-! ### The ratio = 1 path of the main loop -/

@[simp] lemma memset_int_dstB (b : ℤ) (v : Pix) (n : ℕ) (st : BlitState) (i : ℤ) :
    (memset_int b v n st).dstB i = if b ≤ i ∧ i < b + (n : ℤ) then v else st.dstB i := rfl

@[simp] lemma memcpyPix_dstB (db sb : ℤ) (n : ℕ) (st : BlitState) (i : ℤ) :
    (memcpyPix db sb n st).dstB i =
      if db ≤ i ∧ i < db + (n : ℤ) then st.srcB (sb + (i - db)) else st.dstB i := rfl

lemma copy_color_one (src_w count dp sp : ℤ) (st : BlitState) :
    copy_color src_w count 1 dp sp st = memcpyPix dp sp (sizeT (count * 4) / 4) st := by
  unfold copy_color
  rw [if_pos rfl]

lemma blit_loop_one_pos (src_w W : ℤ) (fill : Bool) (fc : Pix) (gp : ℕ) (hW : 0 < W) :
    ∀ (n : ℕ) (q s dp sp : ℤ) (st : BlitState),
      dp = 4 * q → sp = 4 * s → 0 ≤ q →
      4 * (q + (n : ℤ) * (W + (gp : ℤ))) < 2 ^ 31 →
      (blit_loop src_w W 1 fill fc (gp * 4) n dp sp st).2
        = 4 * (q + (n : ℤ) * (W + (gp : ℤ))) := by
  intro n
  induction n with
  | zero =>
      intro q s dp sp st hdp hsp hq hb
      subst hdp hsp
      rw [blit_loop]
      push_cast
      ring
  | succ n ih =>
      intro q s dp sp st hdp hsp hq hb
      subst hdp hsp
      push_cast at hb
      have hexp : ((n : ℤ) + 1) * (W + (gp : ℤ)) = (n : ℤ) * (W + (gp : ℤ)) + (W + (gp : ℤ)) := by
        ring
      rw [hexp] at hb
      have hmn : 0 ≤ (n : ℤ) * (W + (gp : ℤ)) := mul_nonneg (by omega) (by omega)
      rw [blit_loop]
      have hadd : addSizeT (4 * q) (gp * 4) = 4 * (q + (gp : ℤ)) := by
        rw [addSizeT_eq (4 * q) (gp * 4) (by omega) (by push_cast; omega)]
        push_cast
        ring
      rw [hadd]
      rw [ih (q + (gp : ℤ) + W) (s + src_w) _ _ _ (by ring) (by ring) (by omega) (by omega)]
      push_cast
      ring

lemma blit_loop_one_frame (src_w W : ℤ) (fill : Bool) (fc : Pix) (gp : ℕ) (hW : 0 < W) :
    ∀ (n : ℕ) (q s dp sp a : ℤ) (st : BlitState),
      dp = 4 * q → sp = 4 * s → 0 ≤ q →
      4 * (q + (n : ℤ) * (W + (gp : ℤ))) < 2 ^ 31 → a < q →
      (blit_loop src_w W 1 fill fc (gp * 4) n dp sp st).1.dstB a = st.dstB a := by
  intro n
  induction n with
  | zero =>
      intro q s dp sp a st hdp hsp hq hb ha
      rfl
  | succ n ih =>
      intro q s dp sp a st hdp hsp hq hb ha
      subst hdp hsp
      push_cast at hb
      have hexp : ((n : ℤ) + 1) * (W + (gp : ℤ)) = (n : ℤ) * (W + (gp : ℤ)) + (W + (gp : ℤ)) := by
        ring
      rw [hexp] at hb
      have hmn : 0 ≤ (n : ℤ) * (W + (gp : ℤ)) := mul_nonneg (by omega) (by omega)
      rw [blit_loop]
      have hadd : addSizeT (4 * q) (gp * 4) = 4 * (q + (gp : ℤ)) := by
        rw [addSizeT_eq (4 * q) (gp * 4) (by omega) (by push_cast; omega)]
        push_cast
        ring
      rw [hadd, copy_color_one]
      rw [ih (q + (gp : ℤ) + W) (s + src_w) _ _ a _ (by ring) (by ring) (by omega) (by omega)
        (by omega)]
      rw [four_mul_tdiv, four_mul_tdiv]
      rw [memcpyPix_dstB, if_neg (by omega)]
      split_ifs with hf
      · rw [four_mul_tdiv, memset_int_dstB, if_neg (by omega)]
      · rfl

lemma blit_loop_one_copy (src_w W : ℤ) (fill : Bool) (fc : Pix) (gp : ℕ) (hW : 0 < W) :
    ∀ (n : ℕ) (q s dp sp a : ℤ) (st : BlitState) (k : ℕ) (c : ℤ),
      dp = 4 * q → sp = 4 * s →
      a = q + (gp : ℤ) + (k : ℤ) * (W + (gp : ℤ)) + c →
      k < n → 0 ≤ c → c < W → 0 ≤ q →
      4 * (q + (n : ℤ) * (W + (gp : ℤ))) < 2 ^ 31 →
      (blit_loop src_w W 1 fill fc (gp * 4) n dp sp st).1.dstB a
        = st.srcB (s + (k : ℤ) * src_w + c) := by
  intro n
  induction n with
  | zero =>
      intro q s dp sp a st k c hdp hsp ha hk
      exact absurd hk (by omega)
  | succ n ih =>
      intro q s dp sp a st k c hdp hsp ha hk hc0 hc1 hq hb
      subst hdp hsp
      push_cast at hb
      have hexp : ((n : ℤ) + 1) * (W + (gp : ℤ)) = (n : ℤ) * (W + (gp : ℤ)) + (W + (gp : ℤ)) := by
        ring
      rw [hexp] at hb
      have hmn : 0 ≤ (n : ℤ) * (W + (gp : ℤ)) := mul_nonneg (by omega) (by omega)
      rw [blit_loop]
      have hadd : addSizeT (4 * q) (gp * 4) = 4 * (q + (gp : ℤ)) := by
        rw [addSizeT_eq (4 * q) (gp * 4) (by omega) (by push_cast; omega)]
        push_cast
        ring
      rw [hadd, copy_color_one]
      rw [four_mul_tdiv, four_mul_tdiv]
      have hcount : sizeT (W * 4) / 4 = W.toNat := by
        unfold sizeT
        omega
      rw [hcount]
      have hsrc1 : ∀ (cond : Prop) [Decidable cond] (b : ℤ) (v : Pix) (m : ℕ),
          (if cond then memset_int b v m st else st).srcB = st.srcB := by
        intro cond _ b v m
        split_ifs <;> rfl
      cases k with
      | zero =>
          push_cast at ha
          rw [blit_loop_one_frame src_w W fill fc gp hW n (q + (gp : ℤ) + W) (s + src_w) _ _ a _
            (by ring) (by ring) (by omega) (by omega) (by omega)]
          rw [memcpyPix_dstB, if_pos (by omega)]
          rw [hsrc1]
          congr 1
          omega
      | succ k =>
          push_cast at ha
          rw [ih (q + (gp : ℤ) + W) (s + src_w) _ _ a _ k c (by ring) (by ring)
            (by rw [ha]; ring) (by omega) hc0 hc1 (by omega) (by omega)]
          rw [memcpyPix_srcB, hsrc1]
          congr 1
          push_cast
          ring

/-- With ratio 1 and a fully in-bounds rectangle no clipping step changes
anything: clip returns the input geometry. -/
lemma clip_one_id (src_w src_h dst_w dst_h dst_x dst_y src_x src_y width height : ℤ)
    (hsx : 0 ≤ src_x) (hsy : 0 ≤ src_y) (hdx : 0 ≤ dst_x) (hdy : 0 ≤ dst_y)
    (hw : 0 < width) (hh : 0 < height)
    (hsxw : src_x + width ≤ src_w) (hsyh : src_y + height ≤ src_h)
    (hdxw : dst_x + width ≤ dst_w) (hdyh : dst_y + height ≤ dst_h) :
    clip src_w src_h dst_w dst_h 1 ⟨dst_x, dst_y, src_x, src_y, width, height⟩
      = some ⟨dst_x, dst_y, src_x, src_y, width, height⟩ := by
  have e1 : clipFloor 1 (⟨dst_x, dst_y, src_x, src_y, width, height⟩ : ClipState)
      = ⟨dst_x, dst_y, src_x, src_y, width, height⟩ := by
    simp [clipFloor, floor]
  have e2 : clipNegSrcX 1 (⟨dst_x, dst_y, src_x, src_y, width, height⟩ : ClipState)
      = ⟨dst_x, dst_y, src_x, src_y, width, height⟩ := by
    simp only [clipNegSrcX]
    split_ifs with hcond
    · exfalso; omega
    · rfl
  have e3 : clipNegDstX 1 (⟨dst_x, dst_y, src_x, src_y, width, height⟩ : ClipState)
      = ⟨dst_x, dst_y, src_x, src_y, width, height⟩ := by
    simp only [clipNegDstX]
    split_ifs with hcond
    · exfalso; omega
    · rfl
  have e4 : clipNegSrcY 1 (⟨dst_x, dst_y, src_x, src_y, width, height⟩ : ClipState)
      = ⟨dst_x, dst_y, src_x, src_y, width, height⟩ := by
    simp only [clipNegSrcY]
    split_ifs with hcond
    · exfalso; omega
    · rfl
  have e5 : clipNegDstY 1 (⟨dst_x, dst_y, src_x, src_y, width, height⟩ : ClipState)
      = ⟨dst_x, dst_y, src_x, src_y, width, height⟩ := by
    simp only [clipNegDstY]
    split_ifs with hcond
    · exfalso; omega
    · rfl
  have e6 : clipFarSrcX src_w 1 (⟨dst_x, dst_y, src_x, src_y, width, height⟩ : ClipState)
      = ⟨dst_x, dst_y, src_x, src_y, width, height⟩ := by
    simp only [clipFarSrcX]
    split_ifs with hcond
    · exfalso; omega
    · rfl
  have e7 : clipFarDstX dst_w 1 (⟨dst_x, dst_y, src_x, src_y, width, height⟩ : ClipState)
      = ⟨dst_x, dst_y, src_x, src_y, width, height⟩ := by
    simp only [clipFarDstX]
    split_ifs with hcond
    · exfalso; rw [Int.tdiv_one] at hcond; omega
    · rfl
  have e8 : clipFarSrcY src_h 1 (⟨dst_x, dst_y, src_x, src_y, width, height⟩ : ClipState)
      = ⟨dst_x, dst_y, src_x, src_y, width, height⟩ := by
    simp only [clipFarSrcY]
    split_ifs with hcond
    · exfalso; omega
    · rfl
  have e9 : clipFarDstY dst_h 1 (⟨dst_x, dst_y, src_x, src_y, width, height⟩ : ClipState)
      = ⟨dst_x, dst_y, src_x, src_y, width, height⟩ := by
    simp only [clipFarDstY]
    split_ifs with hcond
    · exfalso; rw [Int.tdiv_one] at hcond; omega
    · rfl
  simp only [clip]
  rw [e1, e2, e3, e4, e5, e6, e7, e8, e9]
  split_ifs with h1 h2 h3 h4
  · exact absurd h1 (by omega)
  · exfalso
    dsimp only at h2
    rcases h2 with h2 | h2 <;> omega
  · exfalso
    dsimp only at h3
    omega
  · exfalso
    dsimp only at h4
    omega
  · rfl

/-- A fill that starts at or beyond base does not change the destination
below base, whether or not it runs. -/
lemma ite_memset_frame (cond : Prop) [Decidable cond] (b : ℤ) (v : Pix) (m : ℕ)
    (t : BlitState) (a : ℤ) (ha : a < b) :
    (if cond then memset_int b v m t else t).dstB a = t.dstB a := by
  split_ifs with h
  · rw [memset_int_dstB, if_neg (by omega)]
  · rfl

/-- Claim C5: with ratio 1 and source and destination rectangles fully
inside their buffers, every pixel of the copied destination region is a
byte-exact copy of the corresponding source pixel, for either value of
fill_blank.  The bound dst_w * dst_h * 4 < 2^31 is the representability of
the byte count in a C int, which the code itself computes. -/
theorem claim_C5_ratio_one_copy
    (dst_w dst_h dst_x dst_y src_w src_h src_x src_y width height fill_color : ℤ)
    (fill_blank : Bool) (little : Bool) (st : BlitState)
    (hsx : 0 ≤ src_x) (hsy : 0 ≤ src_y) (hdx : 0 ≤ dst_x) (hdy : 0 ≤ dst_y)
    (hw : 0 < width) (hh : 0 < height)
    (hsxw : src_x + width ≤ src_w) (hsyh : src_y + height ≤ src_h)
    (hdxw : dst_x + width ≤ dst_w) (hdyh : dst_y + height ≤ dst_h)
    (hB : dst_w * dst_h * 4 < 2 ^ 31)
    (r c : ℤ) (hr0 : 0 ≤ r) (hr1 : r < height) (hc0 : 0 ≤ c) (hc1 : c < width) :
    (copy_pixels dst_w dst_h dst_x dst_y src_w src_h src_x src_y width height 1
        fill_blank fill_color little st).dstB ((dst_y + r) * dst_w + (dst_x + c))
      = st.srcB ((src_y + r) * src_w + (src_x + c)) := by
  have hwd : 0 < dst_w := by omega
  have hhd : 0 < dst_h := by omega
  have hP0 : 0 ≤ dst_y * dst_w := mul_nonneg (by omega) (by omega)
  have hfar : 0 ≤ (height - 1) * dst_w := mul_nonneg (by omega) (by omega)
  have hE : dst_y * dst_w + dst_x + width + (height - 1) * dst_w ≤ dst_w * dst_h := by
    have k1 : (dst_y + height) * dst_w ≤ dst_h * dst_w :=
      mul_le_mul_of_nonneg_right (by omega) (by omega)
    have k2 : (dst_y + height) * dst_w = dst_y * dst_w + height * dst_w := by ring
    have k3 : (height - 1) * dst_w = height * dst_w - dst_w := by ring
    have k4 : dst_h * dst_w = dst_w * dst_h := by ring
    omega
  have hPK : dst_y * dst_w + dst_x + width ≤ dst_w * dst_h := by omega
  have hdwK : dst_w ≤ dst_w * dst_h := by
    have k5 : dst_w * 1 ≤ dst_w * dst_h := mul_le_mul_of_nonneg_left (by omega) (by omega)
    have k6 : dst_w * 1 = dst_w := by ring
    omega
  have hgpz : (((dst_w - width).toNat : ℕ) : ℤ) = dst_w - width := Int.toNat_of_nonneg (by omega)
  have hnz : (((height - 1).toNat : ℕ) : ℤ) = height - 1 := Int.toNat_of_nonneg (by omega)
  have hbound : 4 * (dst_y * dst_w + dst_x + width
      + (((height - 1).toNat : ℕ) : ℤ) * (width + (((dst_w - width).toNat : ℕ) : ℤ))) < 2 ^ 31 := by
    rw [hnz, hgpz]
    have k7 : (height - 1) * (width + (dst_w - width)) = (height - 1) * dst_w := by ring
    omega
  have hsrc1 : ∀ (cond : Prop) [Decidable cond] (b : ℤ) (v : Pix) (m : ℕ),
      (if cond then memset_int b v m st else st).srcB = st.srcB := by
    intro cond _ b v m
    split_ifs <;> rfl
  have hclip := clip_one_id src_w src_h dst_w dst_h dst_x dst_y src_x src_y width height
    hsx hsy hdx hdy hw hh hsxw hsyh hdxw hdyh
  rw [copy_pixels_eq]
  unfold copy_pixels_internal
  rw [hclip]
  dsimp only
  rw [show sizeT (dst_y * dst_w + dst_x) * 4 % 2 ^ 64
      = ((dst_y * dst_w + dst_x) * 4).toNat from by unfold sizeT; omega]
  rw [show addSizeT 0 (((dst_y * dst_w + dst_x) * 4).toNat) = (dst_y * dst_w + dst_x) * 4 from by
    unfold addSizeT toInt32; omega]
  rw [show ((dst_y * dst_w + dst_x) * 4).toNat / 4 = (dst_y * dst_w + dst_x).toNat from by omega]
  rw [Int.zero_tdiv]
  rw [show ((dst_y * dst_w + dst_x) * 4).tdiv 4 = dst_y * dst_w + dst_x from by
    rw [show (dst_y * dst_w + dst_x) * 4 = 4 * (dst_y * dst_w + dst_x) from by ring,
      four_mul_tdiv]]
  rw [show ((src_y * src_w + src_x) * 4).tdiv 4 = src_y * src_w + src_x from by
    rw [show (src_y * src_w + src_x) * 4 = 4 * (src_y * src_w + src_x) from by ring,
      four_mul_tdiv]]
  rw [copy_color_one]
  rw [show sizeT (width * 4) / 4 = width.toNat from by unfold sizeT; omega]
  rw [show sizeT ((dst_w - width) * 4) = (dst_w - width).toNat * 4 from by unfold sizeT; omega]
  rw [Int.tdiv_one]
  rw [blit_loop_one_pos src_w width fill_blank _ ((dst_w - width).toNat) hw
    ((height - 1).toNat) (dst_y * dst_w + dst_x + width) (src_y * src_w + src_x + src_w)
    ((dst_y * dst_w + dst_x) * 4 + width * 4) ((src_y * src_w + src_x) * 4 + src_w * 4 * 1)
    _ (by ring) (by ring) (by omega) hbound]
  rw [four_mul_tdiv]
  have hAexp : (dst_y + r) * dst_w = dst_y * dst_w + r * dst_w := by ring
  have hrw : r * dst_w ≤ (height - 1) * dst_w :=
    mul_le_mul_of_nonneg_right (by omega) (by omega)
  have hAE : (dst_y + r) * dst_w + (dst_x + c)
      < dst_y * dst_w + dst_x + width
        + (((height - 1).toNat : ℕ) : ℤ) * (width + (((dst_w - width).toNat : ℕ) : ℤ)) := by
    rw [hnz, hgpz]
    have k7 : (height - 1) * (width + (dst_w - width)) = (height - 1) * dst_w := by ring
    omega
  rw [ite_memset_frame _ _ _ _ _ _ hAE]
  rcases eq_or_lt_of_le hr0 with hr | hr
  · subst hr
    rw [blit_loop_one_frame src_w width fill_blank _ ((dst_w - width).toNat) hw
      ((height - 1).toNat) (dst_y * dst_w + dst_x + width) (src_y * src_w + src_x + src_w)
      ((dst_y * dst_w + dst_x) * 4 + width * 4) ((src_y * src_w + src_x) * 4 + src_w * 4 * 1)
      ((dst_y + 0) * dst_w + (dst_x + c)) _ (by ring) (by ring) (by omega) hbound
      (by have k8 : (dst_y + 0) * dst_w = dst_y * dst_w := by ring
          omega)]
    rw [memcpyPix_dstB, if_pos
      (by have k8 : (dst_y + 0) * dst_w = dst_y * dst_w := by ring
          constructor <;> omega)]
    rw [hsrc1]
    have k8 : (dst_y + 0) * dst_w = dst_y * dst_w := by ring
    have k9 : (src_y + 0) * src_w = src_y * src_w := by ring
    congr 1
    omega
  · rw [blit_loop_one_copy src_w width fill_blank _ ((dst_w - width).toNat) hw
      ((height - 1).toNat) (dst_y * dst_w + dst_x + width) (src_y * src_w + src_x + src_w)
      ((dst_y * dst_w + dst_x) * 4 + width * 4) ((src_y * src_w + src_x) * 4 + src_w * 4 * 1)
      ((dst_y + r) * dst_w + (dst_x + c)) _ ((r - 1).toNat) c (by ring) (by ring)
      (by rw [hgpz, Int.toNat_of_nonneg (show (0 : ℤ) ≤ r - 1 by omega)]
          ring)
      (by omega) hc0 hc1 (by omega) hbound]
    rw [memcpyPix_srcB, hsrc1]
    congr 1
    rw [Int.toNat_of_nonneg (show (0 : ℤ) ≤ r - 1 by omega)]
    ring

/-- Witness for claim C5: a full 2 x 2 copy at ratio 1 with fill_blank
false; the destination pixel at (0, 0) equals the source pixel at (0, 0). -/
theorem claim_C5_witness :
    (copy_pixels 2 2 0 0 2 2 0 0 2 2 1 false 0 true demoState).dstB ((0 + 0) * 2 + (0 + 0))
      = demoState.srcB ((0 + 0) * 2 + (0 + 0)) :=
  claim_C5_ratio_one_copy 2 2 0 0 2 2 0 0 2 2 0 false true demoState
    (by norm_num) (by norm_num) (by norm_num) (by norm_num) (by norm_num) (by norm_num)
    (by norm_num) (by norm_num) (by norm_num) (by norm_num) (by norm_num)
    0 0 (by norm_num) (by norm_num) (by norm_num) (by norm_num)

end Image
